import Mathlib

/-!
Verification development for the MaskFormer feature extractor
(`src/transformers/models/maskformer/feature_extraction_maskformer.py`).

The numeric pipeline is embedded shallowly:

* Python / numpy / torch floating-point values are modelled as exact rationals
  (`ℚ`); all comparisons in the source are order comparisons, which the
  rational model preserves.
* Tensors and numpy arrays are modelled as (nested) lists.  A `(queries, H, W)`
  mask tensor is modelled per image as a list of per-query pixel rows, the
  `H × W` grid flattened row-major into a list of length `numPixels = H * W`.
* The softmax over class logits and the sigmoid over mask logits (lines
  458-460 of the source) are strictly monotone maps into probability space;
  the pipeline is embedded from the probability tensors onward
  (`class_probs = softmax(class_queries_logits)`,
  `mask_probs = sigmoid(masks_queries_logits)`), which is where every
  comparison, argmax and threshold of the algorithm operates.
* Fallible code is embedded in `Except String`.
-/

/-! ## Resizer: `get_size_with_aspect_ratio` (source lines 100-118) -/

/-- Python's built-in `round` (round half to even), on exact rationals. -/
def pyRound (q : ℚ) : ℤ :=
  if Int.fract q < 1/2 then ⌊q⌋
  else if 1/2 < Int.fract q then ⌊q⌋ + 1
  else if ⌊q⌋ % 2 = 0 then ⌊q⌋ else ⌊q⌋ + 1

/-- Python's `int(...)` on a float: truncation toward zero. -/
def pyInt (q : ℚ) : ℤ :=
  if 0 ≤ q then ⌊q⌋ else -⌊-q⌋

/-- Embeds `get_size_with_aspect_ratio(image_size, size, max_size)`
(source lines 100-118).  `image_size = (width, height)` comes from
`PIL.Image.size`; the returned pair is `(oh, ow)`, height first, exactly as
the source returns it.  Float arithmetic is modelled exactly on `ℚ`. -/
def get_size_with_aspect_ratio (width height : ℕ) (size0 : ℤ) (max_size : Option ℚ) : ℤ × ℤ :=
  let size : ℤ :=
    match max_size with
    | none => size0
    | some ms =>
      let min_original_size : ℚ := min (width : ℚ) (height : ℚ)
      let max_original_size : ℚ := max (width : ℚ) (height : ℚ)
      if max_original_size / min_original_size * (size0 : ℚ) > ms then
        pyRound (ms * min_original_size / max_original_size)
      else size0
  if (width ≤ height ∧ (width : ℤ) = size) ∨ (height ≤ width ∧ (height : ℤ) = size) then
    ((height : ℤ), (width : ℤ))
  else if width < height then
    (pyInt ((size : ℚ) * (height : ℚ) / (width : ℚ)), size)
  else
    (size, pyInt ((size : ℚ) * (width : ℚ) / (height : ℚ)))

/-- The longer edge of a computed `(oh, ow)` size. -/
def longerEdge (p : ℤ × ℤ) : ℤ := max p.1 p.2

/-! ## Batch Packer: `_max_by_axis` and `encode_inputs` (source lines 294-378) -/

/-- Embeds `_max_by_axis(the_list)` (source lines 294-299): running
element-wise maximum, starting from the first entry.  The source mutates
`maxes[index]` for every `index` enumerated from `sublist`; it assumes every
`sublist` is no longer than `maxes` (a longer one would raise `IndexError`;
in `encode_inputs` every entry is a 3-element shape list). -/
def _max_by_axis (the_list : List (List ℕ)) : List ℕ :=
  match the_list with
  | [] => []
  | first :: rest =>
    rest.foldl (fun maxes sublist =>
      (List.range maxes.length).map (fun index =>
        if index < sublist.length then max (maxes.getD index 0) (sublist.getD index 0)
        else maxes.getD index 0)) first

/-- A `(C, H, W)` image array, as nested lists of exact rationals. -/
abbrev Image3 := List (List (List ℚ))

/-- The numpy `.shape` of a (rectangular) 3-d array, as the 3-element list
`[dim0, dim1, dim2]` that the source turns into `list(image.shape)`. -/
def shapeOf (img : Image3) : List ℕ :=
  [img.length, (img.getD 0 []).length, ((img.getD 0 []).getD 0 []).length]

/-- Embeds `padded_image = np.zeros((c, height, width)); padded_image[:
image.shape[0], : image.shape[1], : image.shape[2]] = np.copy(image)`
(source lines 338-339): a zero canvas holding the item at the top-left
corner.  For a rectangular `img` the per-index bounds below coincide with the
uniform `image.shape` slice bounds of the source. -/
def padTo3 (c height width : ℕ) (img : Image3) : Image3 :=
  (List.range c).map (fun i =>
    (List.range height).map (fun j =>
      (List.range width).map (fun k =>
        if i < img.length ∧ j < (img.getD i []).length ∧ k < ((img.getD i []).getD j []).length
        then ((img.getD i []).getD j []).getD k 0 else 0)))

/-- One entry of the `annotations` argument: a dict with keys `"masks"`
(instance masks, shape `(instances, H, W)`, boolean dtype) and `"labels"`. -/
structure TargetDict where
  masks : List (List (List Bool))
  labels : List ℕ
deriving DecidableEq

/-- Embeds the numpy slice assignment
`dest[:, : sliceH, : sliceW] = src` on a 3-d boolean array. -/
def assign3 (dest : List (List (List Bool))) (sliceH sliceW : ℕ)
    (src : List (List (List Bool))) : List (List (List Bool)) :=
  (List.range dest.length).map (fun i =>
    (List.range (dest.getD i []).length).map (fun j =>
      (List.range ((dest.getD i []).getD j []).length).map (fun k =>
        if j < sliceH ∧ k < sliceW then ((src.getD i []).getD j []).getD k false
        else ((dest.getD i []).getD j []).getD k false)))

/-- The `data` dict assembled by `encode_inputs` (source lines 359-364).
The trailing `BatchFeature`/tensor-type plumbing (lines 366-377) converts
these lists to tensors and is outside the numeric model. -/
structure EncodedInputs where
  pixel_values : List Image3
  pixel_mask : List (List (List ℕ))
  mask_labels : List (List (List (List Bool)))
  class_labels : List (List ℕ)
deriving DecidableEq

/-- Embeds the per-item loop of `encode_inputs` (source lines 328-356).

Two remarks on fidelity to the source:
* line 340 rebinds the loop variable `image` to `padded_image`, so the
  subsequent `mask[: image.shape[1], : image.shape[2]] = True` (line 355)
  reads the shape of the already-padded canvas; the embedding reproduces
  this rebinding (`image'` below);
* line 348 assigns `np.copy(padded_masks)` (the freshly zeroed canvas), not
  the original `masks`, into `padded_masks`; the embedding reproduces this
  self-assignment via `assign3` with the canvas as its own source. -/
def encode_inputs (pixel_values_list : List Image3) (anns : Option (List TargetDict))
    (pad_and_return_pixel_mask : Bool) : EncodedInputs :=
  let max_size := _max_by_axis (pixel_values_list.map shapeOf)
  let c := max_size.getD 0 0
  let height := max_size.getD 1 0
  let width := max_size.getD 2 0
  -- `if annotations:` - Python truthiness: both None and the empty list skip.
  let annsList := anns.getD []
  let haveAnns := annsList ≠ []
  let pixel_values := pixel_values_list.map (fun image =>
    if pad_and_return_pixel_mask then padTo3 c height width image else image)
  let pixel_mask :=
    if pad_and_return_pixel_mask then
      pixel_values_list.map (fun image =>
        -- the rebinding bug: `image` now refers to the padded canvas
        let image' := if pad_and_return_pixel_mask then padTo3 c height width image else image
        let s1 := (shapeOf image').getD 1 0
        let s2 := (shapeOf image').getD 2 0
        (List.range height).map (fun j =>
          (List.range width).map (fun k =>
            if j < s1 ∧ k < s2 then 1 else 0)))
    else []
  let mask_labels :=
    if haveAnns then
      (List.range pixel_values_list.length).map (fun idx =>
        let ann := annsList.getD idx ⟨[], []⟩
        let masks := ann.masks
        if pad_and_return_pixel_mask then
          let padded_masks : List (List (List Bool)) :=
            (List.range masks.length).map (fun _ =>
              (List.range height).map (fun _ =>
                (List.range width).map (fun _ => false)))
          -- `padded_masks[:, : padded_masks.shape[1], : padded_masks.shape[2]]
          --    = np.copy(padded_masks)` : the canvas is its own source
          assign3 padded_masks height width padded_masks
        else masks)
    else []
  let class_labels :=
    if haveAnns then
      (List.range pixel_values_list.length).map (fun idx =>
        (annsList.getD idx ⟨[], []⟩).labels)
    else []
  { pixel_values := pixel_values
    pixel_mask := pixel_mask
    mask_labels := mask_labels
    class_labels := class_labels }

/-! ## `__call__` argument protocol (source lines 159-292) -/

/-- The run-time type of the `images` argument, as far as the checks at
source lines 214-230 can observe it. -/
inductive PyObj where
  | pil
  | nparray
  | tensor
  | listOf (l : List PyObj)
  | other

/-- `isinstance(x, (Image.Image, np.ndarray)) or is_torch_tensor(x)`. -/
def isImageLike : PyObj → Bool
  | .pil => true
  | .nparray => true
  | .tensor => true
  | _ => false

/-- The validity check at source lines 214-219: a single image-like object,
or a list that is empty or whose first element is image-like. -/
def validImages : PyObj → Bool
  | .listOf l => l.length == 0 || isImageLike (l.getD 0 .other)
  | x => isImageLike x

/-- The parameters of `encode_inputs` (source lines 301-307), excluding the
bound `self`; the signature declares no `**kwargs`. -/
def encodeInputsParams : List String :=
  ["pixel_values_list", "anns_arg", "pad_and_return_pixel_mask", "return_tensors"]

/-- The keyword arguments of the `self.encode_inputs(...)` call at source
lines 276-278 (`images` and `annotations` are passed positionally). -/
def callSiteKeywords : List String := ["should_pad", "return_tensors"]

/-- Possible outcomes of `__call__`. -/
inductive CallResult where
  | ok
  | valueErrorImages
  | indexError
  | typeErrorUnexpectedKw (kw : String)
deriving DecidableEq

/-- Embeds the control flow of `__call__` for `annotations=None` (source
lines 159-292): the `images` type check (lines 211-225, `ValueError` on
failure), the `is_batched` probe (lines 227-230, which evaluates
`images[0]` on a list after the `and` short-circuit and so raises
`IndexError` on an empty list), the resize/normalize loops (pure per-image
transforms that cannot change the control flow), and finally keyword
binding of the `self.encode_inputs(...)` call: Python raises `TypeError`
for the first keyword that is not a parameter of `encode_inputs`. -/
def featureExtractorCall (images : PyObj) : CallResult :=
  if ¬ validImages images then .valueErrorImages
  else
    match images with
    | .listOf [] => .indexError
    | _ =>
      match callSiteKeywords.find? (fun kw => ¬ encodeInputsParams.contains kw) with
      | some kw => .typeErrorUnexpectedKw kw
      | none => .ok

/-! ## `remove_low_and_no_objects` (source lines 406-430) -/

/-- numpy/torch boolean-mask indexing `xs[keep]` (equal lengths). -/
def boolSelect {α : Type} (xs : List α) (keep : List Bool) : List α :=
  (List.zip xs keep).filterMap (fun p => if p.2 then some p.1 else none)

/-- Embeds `remove_low_and_no_objects(masks, scores, labels,
object_mask_threshold, num_labels)` (source lines 406-430): raise
`ValueError` unless the three leading dimensions agree, then keep exactly
the queries with `labels.ne(num_labels) & (scores > object_mask_threshold)`. -/
def remove_low_and_no_objects (masks : List (List ℚ)) (scores : List ℚ) (labels : List ℕ)
    (object_mask_threshold : ℚ) (num_labels : ℕ) :
    Except String (List (List ℚ) × List ℚ × List ℕ) :=
  if ¬ (masks.length = scores.length ∧ scores.length = labels.length) then
    .error "mask, scores and labels must have the same shape!"
  else
    let to_keep := List.zipWith
      (fun l s => decide (l ≠ num_labels) && decide (object_mask_threshold < s)) labels scores
    .ok (boolSelect masks to_keep, boolSelect scores to_keep, boolSelect labels to_keep)

/-- The kept (mask, score, label) triples, in original order: the entries
whose label differs from the null index and whose score strictly exceeds
the threshold.  Used to characterise `remove_low_and_no_objects`. -/
def keptTriples (masks : List (List ℚ)) (scores : List ℚ) (labels : List ℕ)
    (thr : ℚ) (n : ℕ) : List ((List ℚ) × ℚ × ℕ) :=
  (masks.zip (scores.zip labels)).filter
    (fun t => decide (t.2.2 ≠ n) && decide (thr < t.2.1))

/-! ## Panoptic Merger (source lines 432-525) -/

/-- One entry of `self.model.config.dataset_metadata["classes"]` (a
caller-supplied `ClassSpec`: `{is_thing: bool, label: str}`). -/
structure ClassSpec where
  is_thing : Bool
  label : String
deriving DecidableEq

/-- A `PanopticSegmentationSegment` (source lines 40-44). -/
structure PanSegment where
  id : ℕ
  category_id : ℕ
  is_thing : Bool
  label : String
deriving DecidableEq

/-- The mutable state of one image's merge pass: the segment-id counter
`current_segment_id`, the `stuff_memory_list` dict (association list; an
update prepends, and `lookup` finds the most recent binding, matching dict
semantics), the `segmentation` map (flattened `H × W`), and the emitted
`segments`. -/
structure MergeState where
  currentId : ℕ
  stuffMemory : List (ℕ × ℕ)
  segmentation : List ℕ
  segments : List PanSegment
deriving DecidableEq

/-- One image's merge-pass context, built after filtering: the surviving
`pred_labels`, the score-scaled mask rows (`mask_probs *= pred_scores`,
source line 478), the per-pixel winning query indices (`mask_labels =
mask_probs.argmax(0)`, source line 480), the caller's class table, and
`overlap_mask_area_threshold`. -/
structure MergeCtx where
  labels : List ℕ
  scaled : List (List ℚ)
  winners : List ℕ
  classes : List ClassSpec
  overlapThr : ℚ
deriving DecidableEq

/-- First-maximum value of a nonempty list (`[]` gives `0`). -/
def listMax : List ℚ → ℚ
  | [] => 0
  | x :: xs => xs.foldl max x

/-- Helper for `firstArgmax`: best index so far, best value, next index. -/
def firstArgmaxAux : ℕ → ℚ → ℕ → List ℚ → ℕ
  | bi, _, _, [] => bi
  | bi, bv, i, x :: xs =>
    if bv < x then firstArgmaxAux i x (i + 1) xs else firstArgmaxAux bi bv (i + 1) xs

/-- Index of the first maximal element (`[]` gives `0`): the stable-argmax
semantics of `argmax` / `max(-1)` on ties. -/
def firstArgmax : List ℚ → ℕ
  | [] => 0
  | x :: xs => firstArgmaxAux 0 x 1 xs

/-- `mask_k_area = (mask_labels == k).sum()` (source lines 490-492). -/
def maskKArea (ctx : MergeCtx) (k : ℕ) : ℕ :=
  ctx.winners.countP (fun w => w == k)

/-- `original_area = (mask_probs[k] >= 0.5).sum()` (source line 495).
Note `mask_probs` has already been scaled by `pred_scores` at source line
478, so this counts pixels of the *scaled* row. -/
def originalArea (ctx : MergeCtx) (k : ℕ) : ℕ :=
  (ctx.scaled.getD k []).countP (fun p => decide ((1 : ℚ)/2 ≤ p))

/-- Modelled from the spec: the spec's `rawArea` for query `k`, the
"count of pixels where this query's (unscaled) mask probability ≥ 0.5".
Stated over the *unscaled* per-query mask rows, following the spec's words,
for comparison with the source's `originalArea`. -/
def rawAreaSpec (masks : List (List ℚ)) (k : ℕ) : ℕ :=
  (masks.getD k []).countP (fun p => decide ((1 : ℚ)/2 ≤ p))

/-- Query `k` passes both acceptance tests of source lines 497-504:
`mask_does_exist` (both areas positive) and the overlap-ratio test
(`mask_k_area / original_area > overlap_mask_area_threshold`, strict). -/
def acceptedQ (ctx : MergeCtx) (k : ℕ) : Prop :=
  (0 < maskKArea ctx k ∧ 0 < originalArea ctx k) ∧
    ctx.overlapThr < (maskKArea ctx k : ℚ) / (originalArea ctx k : ℚ)

instance (ctx : MergeCtx) (k : ℕ) : Decidable (acceptedQ ctx k) := by
  unfold acceptedQ; infer_instance

/-- `segmentation[mask_k] = id` (source line 511): write `v` into every
pixel whose winning query is `k`. -/
def writeSeg (seg : List ℕ) (winners : List ℕ) (k v : ℕ) : List ℕ :=
  (List.range seg.length).map (fun p => if winners.getD p 0 = k then v else seg.getD p 0)

/-- The segment id used for an accepted query (source lines 506-509): the
remembered id if `pred_class` is in `stuff_memory_list`, else the
incremented counter. -/
def idUsed (ctx : MergeCtx) (k : ℕ) (s : MergeState) : ℕ :=
  match s.stuffMemory.lookup (ctx.labels.getD k 0) with
  | some existing => existing
  | none => s.currentId + 1

/-- The accepted branch of the loop body (source lines 505-521): choose the
segment id (reusing a remembered stuff id, which also overwrites
`current_segment_id`), write the assigned pixels, append a
`PanopticSegmentationSegment` (the append at lines 512-519 is
unconditional, also on a stuff merge), and record the id in
`stuff_memory_list` when the class is stuff. -/
def acceptStep (ctx : MergeCtx) (k : ℕ) (s : MergeState) : MergeState :=
  let pred_class := ctx.labels.getD k 0
  let class_spec := ctx.classes.getD pred_class ⟨true, ""⟩
  let is_stuff := !class_spec.is_thing
  let new_id := idUsed ctx k s
  { currentId := new_id
    stuffMemory := if is_stuff then (pred_class, new_id) :: s.stuffMemory else s.stuffMemory
    segmentation := writeSeg s.segmentation ctx.winners k new_id
    segments := s.segments ++
      [{ id := new_id, category_id := pred_class, is_thing := !is_stuff,
         label := class_spec.label }] }

/-- One iteration of `for k in range(pred_labels.shape[0])` (source lines
484-521): the class lookup is pure, then `mask_does_exist` and the
overlap-ratio test gate the accepted branch. -/
def processQuery (ctx : MergeCtx) (k : ℕ) (s : MergeState) : MergeState :=
  let mask_k_area := maskKArea ctx k
  let original_area := originalArea ctx k
  if 0 < mask_k_area ∧ 0 < original_area then
    if ctx.overlapThr < (mask_k_area : ℚ) / (original_area : ℚ) then
      acceptStep ctx k s
    else s
  else s

/-- The query loop, in original index order. -/
def runQueries (ctx : MergeCtx) : List ℕ → MergeState → MergeState
  | [], s => s
  | k :: ks, s => runQueries ctx ks (processQuery ctx k s)

/-- The state before the loop: counter `0`, empty `stuff_memory_list`,
all-zero `segmentation` (source line 472), no segments. -/
def initState (numPixels : ℕ) : MergeState :=
  { currentId := 0, stuffMemory := [], segmentation := List.replicate numPixels 0,
    segments := [] }

/-- Builds the merge context from the surviving queries: scale each mask row
by its score (source line 478) and take the per-pixel first-maximum query
(source line 480). -/
def mergeCtxOf (masks : List (List ℚ)) (scores : List ℚ) (labels : List ℕ)
    (classes : List ClassSpec) (overlapThr : ℚ) (numPixels : ℕ) : MergeCtx :=
  let scaled := List.zipWith (fun row sc => row.map (fun p => sc * p)) masks scores
  { labels := labels
    scaled := scaled
    winners := (List.range numPixels).map
      (fun p => firstArgmax (scaled.map (fun row => row.getD p 0)))
    classes := classes
    overlapThr := overlapThr }

/-- The Panoptic Merger for one image, applied to the surviving (post
`remove_low_and_no_objects`) masks, scores and labels: steps 3-4 of the
spec, source lines 476-521. -/
def mergeImage (masks : List (List ℚ)) (scores : List ℚ) (labels : List ℕ)
    (classes : List ClassSpec) (overlapThr : ℚ) (numPixels : ℕ) : MergeState :=
  runQueries (mergeCtxOf masks scores labels classes overlapThr numPixels)
    (List.range labels.length) (initState numPixels)

/-- One entry of the `results` list (source line 523). -/
structure ImageResult where
  segmentation : List ℕ
  segments : List PanSegment
deriving DecidableEq

/-- The per-image body of the batch loop (source lines 465-523): per-query
max/argmax over the class axis, filtering, and - when any query survives -
the merge pass.  `results.append` sits *inside* the `for k` loop (source
line 523), so the image contributes one entry per surviving query and none
at all when zero survive; every appended dict holds references to the same
`segmentation` tensor and `segments` list, so at return each entry exposes
the final merged state (hence `List.replicate`). -/
def processImage (class_probs : List (List ℚ)) (mask_probs : List (List ℚ))
    (num_labels : ℕ) (classes : List ClassSpec) (objThr othr : ℚ) (numPixels : ℕ) :
    Except String (List ImageResult) := do
  let pred_scores := class_probs.map listMax
  let pred_labels := class_probs.map firstArgmax
  let (m, s, l) ← remove_low_and_no_objects mask_probs pred_scores pred_labels objThr num_labels
  if 0 < m.length then
    let st := mergeImage m s l classes othr numPixels
    pure (List.replicate l.length ⟨st.segmentation, st.segments⟩)
  else
    pure []

/-- Embeds `post_process_panoptic_segmentation` (source lines 432-525) from
the probability tensors onward: `class_probs_batch` is the softmaxed
`(batch, queries, classes+1)` tensor and `mask_probs_batch` the sigmoided
`(batch, queries, numPixels)` tensor (`numPixels = H * W`, identical across
the batch since inputs were padded).  `num_labels` is the class-axis size
minus one (source line 452); the batch results are concatenated into the
single `results` list. -/
def post_process_panoptic_segmentation (class_probs_batch : List (List (List ℚ)))
    (mask_probs_batch : List (List (List ℚ))) (classes : List ClassSpec)
    (object_mask_threshold overlap_mask_area_threshold : ℚ) (numPixels : ℕ) :
    Except String (List ImageResult) := do
  let num_labels := ((class_probs_batch.getD 0 []).getD 0 []).length - 1
  let perImage ← (List.zip mask_probs_batch class_probs_batch).mapM
    (fun mc => processImage mc.2 mc.1 num_labels classes
      object_mask_threshold overlap_mask_area_threshold numPixels)
  pure perImage.flatten

/-- Decidable equality on `Except`, for evaluating concrete runs. -/
instance exceptDecidableEq {ε α : Type} [DecidableEq ε] [DecidableEq α] :
    DecidableEq (Except ε α) := fun x y =>
  match x, y with
  | .ok a, .ok b => if h : a = b then isTrue (by rw [h]) else isFalse (by simp [h])
  | .error e, .error f => if h : e = f then isTrue (by rw [h]) else isFalse (by simp [h])
  | .ok _, .error _ => isFalse (by simp)
  | .error _, .ok _ => isFalse (by simp)

/-! ## Helper lemmas -/

theorem getD_range_map {α : Type} (f : ℕ → α) (n p : ℕ) (d : α) :
    ((List.range n).map f).getD p d = if p < n then f p else d := by
  rcases Nat.lt_or_ge p n with h | h
  · rw [List.getD_eq_getElem?_getD, List.getElem?_map, List.getElem?_range h]
    simp [h]
  · rw [List.getD_eq_getElem?_getD, List.getElem?_eq_none]
    · simp [Nat.not_lt.mpr h]
    · simpa using h

theorem getD_replicate_zero (n p : ℕ) : (List.replicate n (0 : ℕ)).getD p 0 = 0 := by
  rcases Nat.lt_or_ge p n with h | h
  · rw [List.getD_eq_getElem?_getD, List.getElem?_replicate]
    simp [h]
  · rw [List.getD_eq_getElem?_getD, List.getElem?_eq_none]
    · simp
    · simpa using h

/-! ## C7: `__call__` always dies on the `should_pad` keyword -/

/-- C7: for every valid `images` argument (a single PIL image, array or
tensor, or a non-empty list of them), `__call__` reaches the
`self.encode_inputs(...)` invocation and that invocation raises `TypeError`,
because `__call__` passes the keyword `should_pad` (source line 277), which
is not a parameter of `encode_inputs` (source lines 301-307); hence
`__call__` never returns a `BatchFeature`. -/
theorem call_always_typeerror_should_pad (images : PyObj)
    (h : isImageLike images = true ∨
      ∃ l, images = PyObj.listOf l ∧ l ≠ [] ∧ ∀ e ∈ l, isImageLike e = true) :
    featureExtractorCall images = CallResult.typeErrorUnexpectedKw "should_pad" := by
  rcases h with h | ⟨l, rfl, hne, hall⟩
  · cases images with
    | pil => decide
    | nparray => decide
    | tensor => decide
    | listOf l => simp [isImageLike] at h
    | other => simp [isImageLike] at h
  · obtain ⟨e, rest, rfl⟩ : ∃ e rest, l = e :: rest := by
      cases l with
      | nil => exact absurd rfl hne
      | cons e rest => exact ⟨e, rest, rfl⟩
    have he : isImageLike e = true := hall e (by simp)
    unfold featureExtractorCall
    rw [if_neg]
    · rfl
    · simp [validImages, he]

/-- Witness for C7 at a concrete input: a single PIL image. -/
theorem call_always_typeerror_should_pad_witness :
    featureExtractorCall PyObj.pil = CallResult.typeErrorUnexpectedKw "should_pad" :=
  call_always_typeerror_should_pad PyObj.pil (Or.inl rfl)

/-! ## C9 and C10 -/

/-- Boolean-mask selection of the three filtered tensors coincides with
filtering the zipped (mask, score, label) triples. -/
theorem select_keep_eq (thr : ℚ) (n : ℕ) :
    ∀ (masks : List (List ℚ)) (scores : List ℚ) (labels : List ℕ),
      masks.length = scores.length → scores.length = labels.length →
      (boolSelect masks
          (List.zipWith (fun l s => decide (l ≠ n) && decide (thr < s)) labels scores)
        = (keptTriples masks scores labels thr n).map (fun t => t.1)) ∧
      (boolSelect scores
          (List.zipWith (fun l s => decide (l ≠ n) && decide (thr < s)) labels scores)
        = (keptTriples masks scores labels thr n).map (fun t => t.2.1)) ∧
      (boolSelect labels
          (List.zipWith (fun l s => decide (l ≠ n) && decide (thr < s)) labels scores)
        = (keptTriples masks scores labels thr n).map (fun t => t.2.2)) := by
  intro masks
  induction masks with
  | nil =>
    intro scores labels h1 h2
    cases scores with
    | nil =>
      cases labels with
      | nil => simp [boolSelect, keptTriples]
      | cons l ls => simp at h2
    | cons s ss => simp at h1
  | cons m ms ih =>
    intro scores labels h1 h2
    cases scores with
    | nil => simp at h1
    | cons s ss =>
      cases labels with
      | nil => simp at h2
      | cons l ls =>
        simp only [List.length_cons, Nat.add_right_cancel_iff] at h1 h2
        obtain ⟨ihm, ihs, ihl⟩ := ih ss ls h1 h2
        simp only [boolSelect, keptTriples] at ihm ihs ihl ⊢
        by_cases hln : l = n
        · simp [hln] at ihm ihs ihl ⊢
          exact ⟨ihm, ihs, ihl⟩
        · by_cases hts : thr < s
          · simp [hln, hts] at ihm ihs ihl ⊢
            exact ⟨ihm, ihs, ihl⟩
          · simp [hln, hts] at ihm ihs ihl ⊢
            exact ⟨ihm, ihs, ihl⟩

/-- C10: `remove_low_and_no_objects` raises `ValueError` if and only if the
leading (query-count) dimensions of `masks`, `scores` and `labels` disagree;
otherwise it returns exactly the entries of the three tensors, in original
order, whose label differs from the reserved null-class index `num_labels`
and whose score strictly exceeds `object_mask_threshold`. -/
theorem remove_low_characterization (masks : List (List ℚ)) (scores : List ℚ)
    (labels : List ℕ) (thr : ℚ) (n : ℕ) :
    (¬ (masks.length = scores.length ∧ scores.length = labels.length) →
      remove_low_and_no_objects masks scores labels thr n =
        .error "mask, scores and labels must have the same shape!") ∧
    (masks.length = scores.length → scores.length = labels.length →
      remove_low_and_no_objects masks scores labels thr n =
        .ok ((keptTriples masks scores labels thr n).map (fun t => t.1),
             (keptTriples masks scores labels thr n).map (fun t => t.2.1),
             (keptTriples masks scores labels thr n).map (fun t => t.2.2))) := by
  constructor
  · intro h
    unfold remove_low_and_no_objects
    rw [if_pos h]
  · intro h1 h2
    obtain ⟨e1, e2, e3⟩ := select_keep_eq thr n masks scores labels h1 h2
    unfold remove_low_and_no_objects
    rw [if_neg (not_not_intro ⟨h1, h2⟩)]
    dsimp only
    rw [e1, e2, e3]

set_option maxRecDepth 100000

/-- Witness for C10: one query with label `0 ≠ 1` and score `9/10 > 4/5`
survives the filter; equal leading dimensions, so no error. -/
theorem remove_low_characterization_witness :
    remove_low_and_no_objects [[1/2]] [9/10] [0] (4/5) 1 =
      .ok ([[1/2]], [9/10], [0]) := by
  have h := (remove_low_characterization [[1/2]] [9/10] [0] (4/5) 1).2 rfl rfl
  rw [h]
  with_unfolding_all decide

/-- C9: for positive `(width, height)` and a scalar short-edge target `s`,
if the shorter edge already equals `s` and the `maxSize` cap does not apply,
`get_size_with_aspect_ratio` returns the original `(height, width)`
unchanged (the exact-match short-circuit at source lines 108-109). -/
theorem resize_exact_match_noop (width height : ℕ) (s : ℤ) (max_size : Option ℚ)
    (_hw : 0 < width) (_hh : 0 < height)
    (hmin : ((min width height : ℕ) : ℤ) = s)
    (hcap : ∀ ms, max_size = some ms →
      ¬ (max (width : ℚ) (height : ℚ) / min (width : ℚ) (height : ℚ) * (s : ℚ) > ms)) :
    get_size_with_aspect_ratio width height s max_size = ((height : ℤ), (width : ℤ)) := by
  have hor : (width ≤ height ∧ (width : ℤ) = s) ∨ (height ≤ width ∧ (height : ℤ) = s) := by
    rcases Nat.le_total width height with hle | hle
    · exact Or.inl ⟨hle, by rw [← hmin, min_eq_left hle]⟩
    · exact Or.inr ⟨hle, by rw [← hmin, min_eq_right hle]⟩
  cases max_size with
  | none =>
    unfold get_size_with_aspect_ratio
    exact if_pos hor
  | some ms =>
    unfold get_size_with_aspect_ratio
    dsimp only
    rw [if_neg (hcap ms rfl)]
    exact if_pos hor

/-- Witness for C9: a 2×3 image with short-edge target 2 and cap 100. -/
theorem resize_exact_match_noop_witness :
    get_size_with_aspect_ratio 2 3 2 (some 100) = (3, 2) :=
  resize_exact_match_noop 2 3 2 (some 100) (by decide) (by decide) (by decide)
    (by intro ms hms; cases hms; with_unfolding_all decide)

/-! ## C1, C5, C6: concrete evaluations exhibiting the source's slips -/

/-- C1: evaluation at a failing input.  One image, one query whose class
probabilities are `[3/5, 2/5]` (so predicted score `3/5 ≤ 4/5` is filtered
out), a 4-pixel grid: zero queries survive, and the returned `results` list
is empty - the image contributes *no* entry, because `results.append` sits
inside the per-query loop (source line 523).  The claimed behaviour (exactly
one entry, an all-zero map with an empty segment list) would give a
one-element list. -/
theorem post_process_zero_survivors_no_result :
    post_process_panoptic_segmentation [[[3/5, 2/5]]] [[[7/10, 7/10, 7/10, 7/10]]]
      [⟨true, "cat"⟩] (4/5) (4/5) 4 = .ok [] ∧
    ([] : List ImageResult).length ≠ 1 := by
  with_unfolding_all decide

/-- C5: evaluation at a failing input.  Two items of shapes `(1,1,1)` and
`(1,2,2)`: the canvas is the per-axis maximum `(1,2,2)` and the padded
values are zero outside each item's extent, but item 0's validity mask is
all ones on the whole `2 × 2` canvas - its three padding cells are marked
valid, because line 340 of the source rebinds `image` to the padded canvas
before the mask is written (line 355). -/
theorem encode_inputs_pixel_mask_all_valid :
    (encode_inputs [[[[5]]], [[[1, 2], [3, 4]]]] none true).pixel_values
        = [[[[5, 0], [0, 0]]], [[[1, 2], [3, 4]]]] ∧
    (encode_inputs [[[[5]]], [[[1, 2], [3, 4]]]] none true).pixel_mask
        = [[[1, 1], [1, 1]], [[1, 1], [1, 1]]] ∧
    shapeOf [[[5]]] = [1, 1, 1] := by
  with_unfolding_all decide

/-- C6: evaluation at a failing input.  One `1×1×1` item with a single
all-`true` instance mask: the padded `mask_labels` come out all-`false`,
because source line 348 copies the freshly zeroed `padded_masks` into
itself instead of copying `masks`; the original mask content is discarded. -/
theorem encode_inputs_discards_instance_masks :
    (encode_inputs [[[[5]]]] (some [⟨[[[true]]], [7]⟩]) true).mask_labels = [[[[false]]]] ∧
    (encode_inputs [[[[5]]]] (some [⟨[[[true]]], [7]⟩]) true).class_labels = [[7]] := by
  with_unfolding_all decide

/-! ## Counterexamples for C2, C3, C4, C8 -/

/-- Counterexample for C2 as stated: two surviving queries, both accepted
(hypotheses verified in the conjunction), both predicting stuff class 0
with disjoint accepted pixel sets (`winners = [0, 1]`), yet the returned
segment list contains *two* `Segment` records for that class, not exactly
one: the merge branch still appends a record (source lines 512-519). -/
theorem stuff_merge_two_records_counterexample :
    acceptedQ (mergeCtxOf [[4/5, 1/5], [1/5, 4/5]] [4/5, 4/5] [0, 0]
      [⟨false, "sky"⟩] (1/2) 2) 0 ∧
    acceptedQ (mergeCtxOf [[4/5, 1/5], [1/5, 4/5]] [4/5, 4/5] [0, 0]
      [⟨false, "sky"⟩] (1/2) 2) 1 ∧
    (mergeCtxOf [[4/5, 1/5], [1/5, 4/5]] [4/5, 4/5] [0, 0]
      [⟨false, "sky"⟩] (1/2) 2).winners = [0, 1] ∧
    (([⟨false, "sky"⟩] : List ClassSpec).getD 0 ⟨true, ""⟩).is_thing = false ∧
    ¬ (((mergeImage [[4/5, 1/5], [1/5, 4/5]] [4/5, 4/5] [0, 0]
      [⟨false, "sky"⟩] (1/2) 2).segments.filter
        (fun seg => seg.category_id == 0)).length = 1) := by
  with_unfolding_all decide

/-- Counterexample for C3 as stated: two accepted queries of the same stuff
class yield the segment-id list `[1, 1]` - the emitted ids are not
distinct, since the stuff merge re-emits the remembered id. -/
theorem segment_ids_not_distinct_counterexample :
    ((mergeImage [[9/10, 1/10], [1/10, 9/10]] [9/10, 9/10] [0, 0]
        [⟨false, "sky"⟩] (4/5) 2).segments.map (fun seg => seg.id)) = [1, 1] ∧
    ¬ ((mergeImage [[9/10, 1/10], [1/10, 9/10]] [9/10, 9/10] [0, 0]
        [⟨false, "sky"⟩] (4/5) 2).segments.map (fun seg => seg.id)).Nodup := by
  with_unfolding_all decide

/-- Counterexample for C4 as stated: a surviving query with score `9/10`
and one pixel of unscaled probability `11/20 ≥ 1/2`.  The spec's `rawArea`
(unscaled count) is 1, but the `original_area` the source computes is 0,
because `mask_probs` was already scaled in place by the score
(`9/10 * 11/20 = 99/200 < 1/2`) before line 495 reads it. -/
theorem rawArea_scaled_counterexample :
    originalArea (mergeCtxOf [[11/20]] [9/10] [0] [⟨false, "sky"⟩] (4/5) 1) 0 = 0 ∧
    rawAreaSpec [[11/20]] 0 = 1 := by
  with_unfolding_all decide

/-- Counterexample for C8 as stated: `(width, height) = (1, 3)`, short-edge
target 800, cap 1000.  The cap triggers (third conjunct), the source
rescales the target to `round(1000/3) = 333` and the output long edge is
`int(333 * 3) = 999 ≠ 1000`: not exactly `maxSize`. -/
theorem resize_cap_not_exact_counterexample :
    get_size_with_aspect_ratio 1 3 800 (some 1000) = (999, 333) ∧
    longerEdge (get_size_with_aspect_ratio 1 3 800 (some 1000)) ≠ 1000 ∧
    max ((1 : ℕ) : ℚ) ((3 : ℕ) : ℚ) / min ((1 : ℕ) : ℚ) ((3 : ℕ) : ℚ) * ((800 : ℤ) : ℚ)
      > 1000 := by
  with_unfolding_all decide

/-! ## C4 amended: what `original_area` actually counts -/

theorem getD_zipWith {α β γ : Type} (f : α → β → γ) (as : List α) (bs : List β)
    (k : ℕ) (d : γ) (da : α) (db : β) (h1 : k < as.length) (h2 : k < bs.length) :
    (List.zipWith f as bs).getD k d = f (as.getD k da) (bs.getD k db) := by
  induction as generalizing bs k with
  | nil => simp at h1
  | cons a as ih =>
    cases bs with
    | nil => simp at h2
    | cons b bs =>
      cases k with
      | zero => rfl
      | succ k =>
        simpa using ih bs k (by simpa using h1) (by simpa using h2)

/-- C4 amended: for every surviving query `k` with positive score, the
quantity `original_area` used in the overlap-ratio acceptance test counts
the pixels whose *score-scaled* mask probability is at least `1/2` -
equivalently, the pixels whose unscaled probability is at least
`1/(2·score)` - not the pixels whose unscaled probability is at least
`1/2`: source line 478 scales `mask_probs` in place before line 495 reads
it. -/
theorem originalArea_eq_scaled_count (masks : List (List ℚ)) (scores : List ℚ)
    (labels : List ℕ) (classes : List ClassSpec) (othr : ℚ) (numPixels : ℕ) (k : ℕ)
    (hk : k < masks.length) (hk2 : k < scores.length) (hs : 0 < scores.getD k 0) :
    originalArea (mergeCtxOf masks scores labels classes othr numPixels) k =
      (masks.getD k []).countP (fun p => decide (1 / (2 * scores.getD k 0) ≤ p)) := by
  unfold originalArea mergeCtxOf
  dsimp only
  rw [getD_zipWith (fun row sc => row.map (fun p => sc * p)) masks scores k [] [] 0 hk hk2]
  rw [List.countP_map]
  apply List.countP_congr
  intro p _
  have hiff : ((1 : ℚ)/2 ≤ scores.getD k 0 * p) ↔ (1 / (2 * scores.getD k 0) ≤ p) := by
    rw [div_le_iff₀ (by norm_num : (0:ℚ) < 2),
      div_le_iff₀ (by positivity : (0:ℚ) < 2 * scores.getD k 0),
      show scores.getD k 0 * p * 2 = p * (2 * scores.getD k 0) by ring]
  simpa using hiff

/-- Witness for the amended C4 at the concrete input of the counterexample:
score `9/10 > 0`, one pixel `11/20 < 1/(2 · 9/10) = 5/9`, both sides 0. -/
theorem originalArea_eq_scaled_count_witness :
    originalArea (mergeCtxOf [[11/20]] [9/10] [0] [⟨false, "sky"⟩] (4/5) 1) 0 =
      (([[11/20]] : List (List ℚ)).getD 0 []).countP
        (fun p => decide (1 / (2 * ([(9:ℚ)/10].getD 0 0)) ≤ p)) :=
  originalArea_eq_scaled_count [[11/20]] [9/10] [0] [⟨false, "sky"⟩] (4/5) 1 0
    (by decide) (by decide) (by with_unfolding_all decide)

/-! ## C8 amended: rounding analysis of the size cap -/

/-- Python's half-even `round` is within `1/2` of its argument. -/
theorem pyRound_sub_abs_le (q : ℚ) : |(pyRound q : ℚ) - q| ≤ 1/2 := by
  have hfr : Int.fract q = q - (⌊q⌋ : ℚ) := rfl
  have hf0 : 0 ≤ Int.fract q := Int.fract_nonneg q
  have hf1 : Int.fract q < 1 := Int.fract_lt_one q
  unfold pyRound
  split_ifs with h1 h2 h3
  · rw [abs_le]; constructor <;> linarith
  · push_cast
    rw [abs_le]; constructor <;> linarith
  · have he : Int.fract q = 1/2 := le_antisymm (not_lt.mp h2) (not_lt.mp h1)
    rw [abs_le]; constructor <;> linarith
  · have he : Int.fract q = 1/2 := le_antisymm (not_lt.mp h2) (not_lt.mp h1)
    push_cast
    rw [abs_le]; constructor <;> linarith

/-- `round` of a nonnegative rational is nonnegative. -/
theorem pyRound_nonneg (q : ℚ) (h : 0 ≤ q) : 0 ≤ pyRound q := by
  have h0 : 0 ≤ ⌊q⌋ := Int.floor_nonneg.mpr h
  unfold pyRound
  split_ifs <;> omega

/-- A floor whose argument is within `B` of `ms` is within `B + 1` of `ms`. -/
theorem floor_bound_aux (X ms B : ℚ) (hub : X ≤ ms + B) (hlb : ms - B ≤ X) :
    |((⌊X⌋ : ℤ) : ℚ) - ms| ≤ B + 1 := by
  have h1 : ((⌊X⌋ : ℤ) : ℚ) ≤ X := Int.floor_le X
  have h2 : X - 1 < ((⌊X⌋ : ℤ) : ℚ) := Int.sub_one_lt_floor X
  rw [abs_le]; constructor <;> linarith

/-- Scaling the rounded short-edge target back by `M/m` lands within
`M/(2m)` of the requested cap `ms`. -/
theorem scaled_round_bounds (ms m M : ℚ) (hm : 0 < m) (hM : 0 < M) (s' : ℤ)
    (hround : |(s' : ℚ) - ms * m / M| ≤ 1/2) :
    ms - M / (2 * m) ≤ (s' : ℚ) * M / m ∧ (s' : ℚ) * M / m ≤ ms + M / (2 * m) := by
  obtain ⟨hl, hu⟩ := abs_le.mp hround
  have hMm : 0 ≤ M / m := le_of_lt (div_pos hM hm)
  have hm' : m ≠ 0 := hm.ne'
  have hM' : M ≠ 0 := hM.ne'
  constructor
  · calc ms - M / (2*m) = (ms * m / M - 1/2) * (M / m) := by field_simp; ring
      _ ≤ (s' : ℚ) * (M / m) := mul_le_mul_of_nonneg_right (by linarith) hMm
      _ = (s' : ℚ) * M / m := (mul_div_assoc _ _ _).symm
  · calc (s' : ℚ) * M / m = (s' : ℚ) * (M / m) := mul_div_assoc _ _ _
      _ ≤ (ms * m / M + 1/2) * (M / m) := mul_le_mul_of_nonneg_right (by linarith) hMm
      _ = ms + M / (2 * m) := by field_simp; ring


/-- On nonnegative arguments, Python's `int(...)` truncation is the floor. -/
theorem pyInt_of_nonneg (q : ℚ) (h : 0 ≤ q) : pyInt q = ⌊q⌋ := if_pos h

/-- C8 amended: when the cap triggers, the longer edge of the computed size
is within `M/(2m) + 1` of `maxSize` (with `m`, `M` the input's shorter and
longer edges) - the rescaled short-edge target is rounded to an integer
before the aspect computation and the long edge is truncated after it, so
the long edge equals `maxSize` only up to these two roundings, not
exactly. -/
theorem resize_cap_long_edge_bound (width height : ℕ) (size0 : ℤ) (ms : ℚ)
    (hw : 0 < width) (hh : 0 < height) (hms : 0 < ms)
    (hcap : max (width:ℚ) (height:ℚ) / min (width:ℚ) (height:ℚ) * (size0:ℚ) > ms) :
    |(longerEdge (get_size_with_aspect_ratio width height size0 (some ms)) : ℚ) - ms|
      ≤ max (width:ℚ) (height:ℚ) / (2 * min (width:ℚ) (height:ℚ)) + 1 := by
  have hw' : (0:ℚ) < width := by exact_mod_cast hw
  have hh' : (0:ℚ) < height := by exact_mod_cast hh
  have hm0 : (0:ℚ) < min (width:ℚ) (height:ℚ) := lt_min hw' hh'
  have hM0 : (0:ℚ) < max (width:ℚ) (height:ℚ) := lt_of_lt_of_le hm0 min_le_max
  have hprog : get_size_with_aspect_ratio width height size0 (some ms) =
      (if (width ≤ height ∧ (width : ℤ) =
              pyRound (ms * min (width:ℚ) (height:ℚ) / max (width:ℚ) (height:ℚ))) ∨
          (height ≤ width ∧ (height : ℤ) =
              pyRound (ms * min (width:ℚ) (height:ℚ) / max (width:ℚ) (height:ℚ))) then
        ((height : ℤ), (width : ℤ))
      else if width < height then
        (pyInt ((pyRound (ms * min (width:ℚ) (height:ℚ) / max (width:ℚ) (height:ℚ)) : ℚ)
            * (height : ℚ) / (width : ℚ)),
          pyRound (ms * min (width:ℚ) (height:ℚ) / max (width:ℚ) (height:ℚ)))
      else
        (pyRound (ms * min (width:ℚ) (height:ℚ) / max (width:ℚ) (height:ℚ)),
          pyInt ((pyRound (ms * min (width:ℚ) (height:ℚ) / max (width:ℚ) (height:ℚ)) : ℚ)
            * (width : ℚ) / (height : ℚ)))) := by
    unfold get_size_with_aspect_ratio
    dsimp only
    rw [if_pos hcap]
  rw [hprog]
  set m : ℚ := min (width:ℚ) (height:ℚ) with hmdef
  set M : ℚ := max (width:ℚ) (height:ℚ) with hMdef
  set s' : ℤ := pyRound (ms * m / M) with hs'def
  have hs'0 : 0 ≤ s' := pyRound_nonneg _ (by positivity)
  have hs'0' : (0:ℚ) ≤ (s' : ℚ) := by exact_mod_cast hs'0
  have hround : |(s' : ℚ) - ms * m / M| ≤ 1/2 := pyRound_sub_abs_le (ms * m / M)
  obtain ⟨hlb, hub⟩ := scaled_round_bounds ms m M hm0 hM0 s' hround
  by_cases hsc : (width ≤ height ∧ (width : ℤ) = s') ∨ (height ≤ width ∧ (height : ℤ) = s')
  · rw [if_pos hsc]
    have hLE : ((longerEdge ((height:ℤ), (width:ℤ)) : ℤ) : ℚ) = M := by
      unfold longerEdge
      push_cast
      rw [max_comm]
    rw [hLE]
    have hms' : (s' : ℚ) = m := by
      rcases hsc with ⟨hle, heq⟩ | ⟨hle, heq⟩
      · have h1 : m = (width:ℚ) := min_eq_left (by exact_mod_cast hle)
        rw [h1, ← heq]
        push_cast
        ring
      · have h1 : m = (height:ℚ) := min_eq_right (by exact_mod_cast hle)
        rw [h1, ← heq]
        push_cast
        ring
    have key : M - ms = (M / m) * ((s':ℚ) - ms * m / M) := by
      rw [hms']
      field_simp
      ring
    have habs : |M - ms| ≤ (M/m) * (1/2) := by
      rw [key, abs_mul, abs_of_nonneg (le_of_lt (div_pos hM0 hm0))]
      exact mul_le_mul_of_nonneg_left hround (le_of_lt (div_pos hM0 hm0))
    calc |M - ms| ≤ (M/m) * (1/2) := habs
      _ = M / (2*m) := by ring
      _ ≤ M/(2*m) + 1 := by linarith
  · rw [if_neg hsc]
    by_cases hwh : width < height
    · rw [if_pos hwh]
      have hmw : m = (width:ℚ) := min_eq_left (le_of_lt (by exact_mod_cast hwh))
      have hMh : M = (height:ℚ) := max_eq_right (le_of_lt (by exact_mod_cast hwh))
      have hX0 : (0:ℚ) ≤ (s':ℚ) * (height:ℚ) / (width:ℚ) := by positivity
      rw [pyInt_of_nonneg _ hX0]
      have hfl : s' ≤ ⌊(s':ℚ) * (height:ℚ) / (width:ℚ)⌋ := by
        rw [Int.le_floor]
        rw [le_div_iff₀ hw']
        have h2 : (s':ℚ) * (width:ℚ) ≤ (s':ℚ) * (height:ℚ) :=
          mul_le_mul_of_nonneg_left (by exact_mod_cast le_of_lt hwh) hs'0'
        linarith
      have hLE : longerEdge (⌊(s':ℚ) * (height:ℚ) / (width:ℚ)⌋, s')
          = ⌊(s':ℚ) * (height:ℚ) / (width:ℚ)⌋ := max_eq_left hfl
      rw [hLE]
      have hXeq : (s':ℚ) * (height:ℚ) / (width:ℚ) = (s':ℚ) * M / m := by rw [hmw, hMh]
      rw [hXeq]
      exact floor_bound_aux _ ms _ hub hlb
    · rw [if_neg hwh]
      have hhw : height ≤ width := Nat.le_of_not_lt hwh
      have hmh : m = (height:ℚ) := min_eq_right (by exact_mod_cast hhw)
      have hMw : M = (width:ℚ) := max_eq_left (by exact_mod_cast hhw)
      have hY0 : (0:ℚ) ≤ (s':ℚ) * (width:ℚ) / (height:ℚ) := by positivity
      rw [pyInt_of_nonneg _ hY0]
      have hfl : s' ≤ ⌊(s':ℚ) * (width:ℚ) / (height:ℚ)⌋ := by
        rw [Int.le_floor]
        rw [le_div_iff₀ hh']
        have h2 : (s':ℚ) * (height:ℚ) ≤ (s':ℚ) * (width:ℚ) :=
          mul_le_mul_of_nonneg_left (by exact_mod_cast hhw) hs'0'
        linarith
      have hLE : longerEdge (s', ⌊(s':ℚ) * (width:ℚ) / (height:ℚ)⌋)
          = ⌊(s':ℚ) * (width:ℚ) / (height:ℚ)⌋ := max_eq_right hfl
      rw [hLE]
      have hYeq : (s':ℚ) * (width:ℚ) / (height:ℚ) = (s':ℚ) * M / m := by rw [hmh, hMw]
      rw [hYeq]
      exact floor_bound_aux _ ms _ hub hlb



/-- Witness for the amended C8 at the counterexample input `(1, 3)`,
target 800, cap 1000: the long edge 999 is within `3/2 + 1` of 1000. -/
theorem resize_cap_long_edge_bound_witness :
    |(longerEdge (get_size_with_aspect_ratio 1 3 800 (some 1000)) : ℚ) - 1000|
      ≤ max ((1:ℕ):ℚ) ((3:ℕ):ℚ) / (2 * min ((1:ℕ):ℚ) ((3:ℕ):ℚ)) + 1 :=
  resize_cap_long_edge_bound 1 3 800 1000 (by decide) (by decide) (by norm_num)
    (by with_unfolding_all decide)

/-! ## Merger toolkit -/

/-- The nested `mask_does_exist` / overlap tests combine to `acceptedQ`. -/
theorem processQuery_of_accepted (ctx : MergeCtx) (k : ℕ) (s : MergeState)
    (h : acceptedQ ctx k) : processQuery ctx k s = acceptStep ctx k s := by
  unfold processQuery
  rw [if_pos h.1, if_pos h.2]

/-- A query failing either acceptance test leaves the state unchanged. -/
theorem processQuery_of_not_accepted (ctx : MergeCtx) (k : ℕ) (s : MergeState)
    (h : ¬ acceptedQ ctx k) : processQuery ctx k s = s := by
  unfold processQuery
  by_cases h1 : 0 < maskKArea ctx k ∧ 0 < originalArea ctx k
  · rw [if_pos h1, if_neg (fun h2 => h ⟨h1, h2⟩)]
  · rw [if_neg h1]

/-- Unfolding one iteration of the query loop. -/
theorem runQueries_cons (ctx : MergeCtx) (k : ℕ) (ks : List ℕ) (s : MergeState) :
    runQueries ctx (k :: ks) s = runQueries ctx ks (processQuery ctx k s) := rfl

/-- The accepted branch appends exactly one segment record. -/
theorem acceptStep_segments (ctx : MergeCtx) (k : ℕ) (s : MergeState) :
    (acceptStep ctx k s).segments = s.segments ++
      [⟨idUsed ctx k s, ctx.labels.getD k 0,
        !(!(ctx.classes.getD (ctx.labels.getD k 0) ⟨true, ""⟩).is_thing),
        (ctx.classes.getD (ctx.labels.getD k 0) ⟨true, ""⟩).label⟩] := rfl

/-- Masked assignment preserves the map's size. -/
theorem writeSeg_length (seg winners : List ℕ) (k v : ℕ) :
    (writeSeg seg winners k v).length = seg.length := by
  unfold writeSeg
  simp

/-- Reading past the end of a map yields the default 0. -/
theorem getD_out_of_range (l : List ℕ) (p : ℕ) (h : l.length ≤ p) : l.getD p 0 = 0 := by
  rw [List.getD_eq_getElem?_getD, List.getElem?_eq_none (by simpa using h)]
  rfl

/-- Cell-level description of the masked assignment `segmentation[mask_k] = id`. -/
theorem writeSeg_getD (seg winners : List ℕ) (k v p : ℕ) :
    (writeSeg seg winners k v).getD p 0 =
      if p < seg.length then (if winners.getD p 0 = k then v else seg.getD p 0) else 0 := by
  unfold writeSeg
  rw [getD_range_map]

/-- One loop iteration preserves the map's size. -/
theorem processQuery_seg_length (ctx : MergeCtx) (k : ℕ) (s : MergeState) :
    (processQuery ctx k s).segmentation.length = s.segmentation.length := by
  by_cases h : acceptedQ ctx k
  · rw [processQuery_of_accepted ctx k s h]
    exact writeSeg_length _ _ _ _
  · rw [processQuery_of_not_accepted ctx k s h]

/-- Association-list lookup skips a binding with a different key. -/
theorem lookup_cons_ne {c a : ℕ} (b : ℕ) (l : List (ℕ × ℕ)) (h : c ≠ a) :
    ((a, b) :: l).lookup c = l.lookup c := by
  simp [List.lookup, beq_false_of_ne h]

/-- Association-list lookup finds the most recent binding of a key. -/
theorem lookup_cons_self {a : ℕ} (b : ℕ) (l : List (ℕ × ℕ)) :
    ((a, b) :: l).lookup a = some b := by
  simp [List.lookup]

/-- A successful lookup exhibits a member of the association list. -/
theorem lookup_mem : ∀ (l : List (ℕ × ℕ)) (c v : ℕ), l.lookup c = some v → (c, v) ∈ l := by
  intro l
  induction l with
  | nil => intro c v h; simp [List.lookup] at h
  | cons a l ih =>
    intro c v h
    obtain ⟨a1, a2⟩ := a
    by_cases hc : c = a1
    · subst hc
      rw [lookup_cons_self] at h
      cases h
      exact List.mem_cons_self _ _
    · rw [lookup_cons_ne _ _ hc] at h
      exact List.mem_cons_of_mem _ (ih c v h)

/-- Once `stuff_memory_list` maps a stuff class to an id, one loop
iteration keeps that mapping: a merge rewrites the same value, other
classes touch other keys. -/
theorem processQuery_lookup_stuff (ctx : MergeCtx) (k : ℕ) (s : MergeState) {c v : ℕ}
    (hst : (ctx.classes.getD c ⟨true, ""⟩).is_thing = false)
    (hl : s.stuffMemory.lookup c = some v) :
    (processQuery ctx k s).stuffMemory.lookup c = some v := by
  by_cases hacc : acceptedQ ctx k
  · rw [processQuery_of_accepted ctx k s hacc]
    unfold acceptStep
    dsimp only
    by_cases hc : ctx.labels.getD k 0 = c
    · have hid : idUsed ctx k s = v := by
        unfold idUsed
        rw [hc, hl]
      rw [if_pos (by rw [hc, hst]; rfl), hc, hid]
      exact lookup_cons_self _ _
    · by_cases hstuff : (!(ctx.classes.getD (ctx.labels.getD k 0) ⟨true, ""⟩).is_thing) = true
      · rw [if_pos hstuff, lookup_cons_ne _ _ (fun hh => hc hh.symm)]
        exact hl
      · rw [if_neg hstuff]
        exact hl
  · rw [processQuery_of_not_accepted ctx k s hacc]
    exact hl

/-- A query that is not an accepted query of class `c` leaves
`stuff_memory_list`'s entry for `c` unchanged. -/
theorem processQuery_lookup_other (ctx : MergeCtx) (k : ℕ) (s : MergeState) {c : ℕ}
    (h : ¬ (acceptedQ ctx k ∧ ctx.labels.getD k 0 = c)) :
    (processQuery ctx k s).stuffMemory.lookup c = s.stuffMemory.lookup c := by
  by_cases hacc : acceptedQ ctx k
  · have hc : ctx.labels.getD k 0 ≠ c := fun hh => h ⟨hacc, hh⟩
    rw [processQuery_of_accepted ctx k s hacc]
    unfold acceptStep
    dsimp only
    by_cases hstuff : (!(ctx.classes.getD (ctx.labels.getD k 0) ⟨true, ""⟩).is_thing) = true
    · rw [if_pos hstuff]
      exact lookup_cons_ne _ _ (fun hh => hc hh.symm)
    · rw [if_neg hstuff]
  · rw [processQuery_of_not_accepted ctx k s hacc]

/-- `stuff_memory_list`'s entry for a stuff class is stable under the
rest of the loop. -/
theorem runQueries_lookup_stuff (ctx : MergeCtx) {c v : ℕ}
    (hst : (ctx.classes.getD c ⟨true, ""⟩).is_thing = false) :
    ∀ (ks : List ℕ) (s : MergeState), s.stuffMemory.lookup c = some v →
      (runQueries ctx ks s).stuffMemory.lookup c = some v := by
  intro ks
  induction ks with
  | nil => intro s h; exact h
  | cons k ks ih =>
    intro s h
    rw [runQueries_cons]
    exact ih _ (processQuery_lookup_stuff ctx k s hst h)

/-- A run containing no accepted query of class `c` does not create or
change the memory entry for `c`. -/
theorem runQueries_lookup_untouched (ctx : MergeCtx) {c : ℕ} :
    ∀ (ks : List ℕ) (s : MergeState),
      (∀ k ∈ ks, ¬ (acceptedQ ctx k ∧ ctx.labels.getD k 0 = c)) →
      (runQueries ctx ks s).stuffMemory.lookup c = s.stuffMemory.lookup c := by
  intro ks
  induction ks with
  | nil => intro s _; rfl
  | cons k ks ih =>
    intro s h
    rw [runQueries_cons, ih _ (fun j hj => h j (List.mem_cons_of_mem _ hj))]
    exact processQuery_lookup_other ctx k s (h k (List.mem_cons_self _ _))

/-- The whole loop preserves the map's size. -/
theorem runQueries_seg_length (ctx : MergeCtx) :
    ∀ (ks : List ℕ) (s : MergeState),
      (runQueries ctx ks s).segmentation.length = s.segmentation.length := by
  intro ks
  induction ks with
  | nil => intro s; rfl
  | cons k ks ih =>
    intro s
    rw [runQueries_cons, ih, processQuery_seg_length]

/-- A query writes only the pixels it won: other cells are untouched. -/
theorem processQuery_getD_of_ne (ctx : MergeCtx) (k : ℕ) (s : MergeState) (p : ℕ)
    (h : ctx.winners.getD p 0 ≠ k) :
    (processQuery ctx k s).segmentation.getD p 0 = s.segmentation.getD p 0 := by
  by_cases hacc : acceptedQ ctx k
  · rw [processQuery_of_accepted ctx k s hacc]
    show (writeSeg s.segmentation ctx.winners k (idUsed ctx k s)).getD p 0 = _
    rw [writeSeg_getD]
    by_cases hp : p < s.segmentation.length
    · rw [if_pos hp, if_neg h]
    · rw [if_neg hp, getD_out_of_range _ _ (Nat.le_of_not_lt hp)]
  · rw [processQuery_of_not_accepted ctx k s hacc]

/-- An accepted query writes its chosen id into each pixel it won. -/
theorem processQuery_getD_of_accepted (ctx : MergeCtx) (k : ℕ) (s : MergeState) (p : ℕ)
    (hacc : acceptedQ ctx k) (hw : ctx.winners.getD p 0 = k)
    (hp : p < s.segmentation.length) :
    (processQuery ctx k s).segmentation.getD p 0 = idUsed ctx k s := by
  rw [processQuery_of_accepted ctx k s hacc]
  show (writeSeg s.segmentation ctx.winners k (idUsed ctx k s)).getD p 0 = _
  rw [writeSeg_getD, if_pos hp, if_pos hw]

/-- With a stuff class `c` remembered at id `v`, a pixel whose winning
query is an accepted class-`c` query ends up holding `v`: either its
winner is still to be processed (and will write `v`), or the cell already
holds `v` and no other query may overwrite it. -/
theorem runQueries_pixel_stuff (ctx : MergeCtx) {c v : ℕ}
    (hst : (ctx.classes.getD c ⟨true, ""⟩).is_thing = false) :
    ∀ (ks : List ℕ) (s : MergeState) (p : ℕ), s.stuffMemory.lookup c = some v →
      p < s.segmentation.length →
      ctx.labels.getD (ctx.winners.getD p 0) 0 = c →
      acceptedQ ctx (ctx.winners.getD p 0) →
      (ctx.winners.getD p 0 ∈ ks ∨ s.segmentation.getD p 0 = v) →
      (runQueries ctx ks s).segmentation.getD p 0 = v := by
  intro ks
  induction ks with
  | nil =>
    intro s p _ _ _ _ hor
    rcases hor with h | h
    · simp at h
    · exact h
  | cons k ks ih =>
    intro s p hl hp hlbl hacc hor
    have hl' := processQuery_lookup_stuff ctx k s hst hl
    have hp' : p < (processQuery ctx k s).segmentation.length := by
      rw [processQuery_seg_length]; exact hp
    rw [runQueries_cons]
    by_cases hwk : ctx.winners.getD p 0 = k
    · have hacck : acceptedQ ctx k := hwk ▸ hacc
      have hid : idUsed ctx k s = v := by
        unfold idUsed
        rw [show ctx.labels.getD k 0 = c from hwk ▸ hlbl, hl]
      apply ih _ p hl' hp' hlbl hacc
      right
      rw [processQuery_getD_of_accepted ctx k s p hacck hwk hp, hid]
    · rcases hor with hin | hval
      · have hin' : ctx.winners.getD p 0 ∈ ks := by
          rcases List.mem_cons.mp hin with h | h
          · exact absurd h hwk
          · exact h
        exact ih _ p hl' hp' hlbl hacc (Or.inl hin')
      · apply ih _ p hl' hp' hlbl hacc
        right
        rw [processQuery_getD_of_ne ctx k s p hwk]
        exact hval

/-- With a stuff class `c` remembered at id `v`, every class-`c` record
emitted by the rest of the loop carries the id `v` (the merge branch). -/
theorem runQueries_classc_ids (ctx : MergeCtx) {c v : ℕ}
    (hst : (ctx.classes.getD c ⟨true, ""⟩).is_thing = false) :
    ∀ (ks : List ℕ) (s : MergeState), s.stuffMemory.lookup c = some v →
      ∃ t, (runQueries ctx ks s).segments = s.segments ++ t ∧
        ∀ seg ∈ t, seg.category_id = c → seg.id = v := by
  intro ks
  induction ks with
  | nil =>
    intro s _
    exact ⟨[], by simp [runQueries], by simp⟩
  | cons k ks ih =>
    intro s hl
    rw [runQueries_cons]
    by_cases hacc : acceptedQ ctx k
    · obtain ⟨t, ht, hprop⟩ := ih _ (processQuery_lookup_stuff ctx k s hst hl)
      refine ⟨⟨idUsed ctx k s, ctx.labels.getD k 0,
          !(!(ctx.classes.getD (ctx.labels.getD k 0) ⟨true, ""⟩).is_thing),
          (ctx.classes.getD (ctx.labels.getD k 0) ⟨true, ""⟩).label⟩ :: t, ?_, ?_⟩
      · rw [ht, processQuery_of_accepted ctx k s hacc, acceptStep_segments]
        simp
      · intro seg hseg hcat
        rcases List.mem_cons.mp hseg with rfl | hseg'
        · have hc : ctx.labels.getD k 0 = c := hcat
          unfold idUsed
          rw [hc, hl]
        · exact hprop seg hseg' hcat
    · obtain ⟨t, ht, hprop⟩ := ih s hl
      rw [processQuery_of_not_accepted ctx k s hacc]
      exact ⟨t, ht, hprop⟩

/-- A run containing no accepted query of class `c` emits no class-`c`
record. -/
theorem runQueries_no_classc (ctx : MergeCtx) (c : ℕ) :
    ∀ (ks : List ℕ) (s : MergeState),
      (∀ k ∈ ks, ¬ (acceptedQ ctx k ∧ ctx.labels.getD k 0 = c)) →
      (∀ seg ∈ s.segments, seg.category_id ≠ c) →
      ∀ seg ∈ (runQueries ctx ks s).segments, seg.category_id ≠ c := by
  intro ks
  induction ks with
  | nil => intro s _ hs; exact hs
  | cons k ks ih =>
    intro s h hs
    rw [runQueries_cons]
    apply ih _ (fun j hj => h j (List.mem_cons_of_mem _ hj))
    by_cases hacc : acceptedQ ctx k
    · rw [processQuery_of_accepted ctx k s hacc, acceptStep_segments]
      intro seg hseg
      rcases List.mem_append.mp hseg with h1 | h1
      · exact hs seg h1
      · rcases List.mem_singleton.mp h1 with rfl
        exact fun hcat => (h k (List.mem_cons_self _ _)) ⟨hacc, hcat⟩
    · rw [processQuery_of_not_accepted ctx k s hacc]
      exact hs

/-- Each accepted query appends exactly one record of its own class, so
record counts per class reduce to counting accepted query indices. -/
theorem runQueries_count_cat (ctx : MergeCtx) (c : ℕ) :
    ∀ (ks : List ℕ) (s : MergeState),
      ((runQueries ctx ks s).segments.countP (fun seg => seg.category_id == c)) =
        s.segments.countP (fun seg => seg.category_id == c) +
          ks.countP (fun k => decide (acceptedQ ctx k) && (ctx.labels.getD k 0 == c)) := by
  intro ks
  induction ks with
  | nil => intro s; simp [runQueries]
  | cons k ks ih =>
    intro s
    rw [runQueries_cons, ih, List.countP_cons]
    by_cases hacc : acceptedQ ctx k
    · rw [processQuery_of_accepted ctx k s hacc, acceptStep_segments, List.countP_append,
        List.countP_cons, List.countP_nil,
        show decide (acceptedQ ctx k) = true from decide_eq_true hacc, Bool.true_and]
      dsimp only
      generalize (if (ctx.labels.getD k 0 == c) = true then 1 else 0) = w
      omega
    · rw [processQuery_of_not_accepted ctx k s hacc,
        show decide (acceptedQ ctx k) = false from decide_eq_false hacc, Bool.false_and]
      simp

/-- Counting over `range n` a predicate that never holds. -/
theorem countP_range_zero (p : ℕ → Bool) :
    ∀ n, (∀ k, k < n → p k = false) → (List.range n).countP p = 0 := by
  intro n
  induction n with
  | zero => intro _; simp
  | succ n ih =>
    intro h
    rw [List.range_succ, List.countP_append, ih (fun k hk => h k (Nat.lt_succ_of_lt hk))]
    simp [h n (Nat.lt_succ_self n)]

/-- Counting over `range n` a predicate that holds exactly once. -/
theorem countP_range_one (p : ℕ → Bool) :
    ∀ n i, i < n → p i = true → (∀ k, k < n → p k = true → k = i) →
      (List.range n).countP p = 1 := by
  intro n
  induction n with
  | zero => intro i h; omega
  | succ n ih =>
    intro i hi hp h
    rw [List.range_succ, List.countP_append]
    by_cases hin : i = n
    · rw [countP_range_zero p n (fun k hk => ?_)]
      · simp [hin ▸ hp]
      · by_cases hpk : p k = true
        · exact absurd (h k (Nat.lt_succ_of_lt hk) hpk) (by omega)
        · exact Bool.not_eq_true _ ▸ hpk  -- p k = false
    · have hi' : i < n := by omega
      have hpn : p n = false := by
        by_cases hpn : p n = true
        · exact absurd (h n (Nat.lt_succ_self n) hpn) (fun he => hin he.symm)
        · exact Bool.not_eq_true _ ▸ hpn
      rw [ih i hi' hp (fun k hk hpk => h k (Nat.lt_succ_of_lt hk) hpk)]
      simp [hpn]

/-- Counting over `range n` a predicate that holds exactly twice. -/
theorem countP_range_two (p : ℕ → Bool) :
    ∀ n i j, i < j → j < n → p i = true → p j = true →
      (∀ k, k < n → p k = true → k = i ∨ k = j) →
      (List.range n).countP p = 2 := by
  intro n
  induction n with
  | zero => intro i j h1 h2; omega
  | succ n ih =>
    intro i j hij hj hpi hpj h
    rw [List.range_succ, List.countP_append]
    by_cases hjn : j = n
    · rw [countP_range_one p n i (by omega) hpi (fun k hk hpk => ?_)]
      · simp [hjn ▸ hpj]
      · rcases h k (Nat.lt_succ_of_lt hk) hpk with hk' | hk'
        · exact hk'
        · omega
    · have hpn : p n = false := by
        by_cases hpn : p n = true
        · rcases h n (Nat.lt_succ_self n) hpn with he | he <;> omega
        · exact Bool.not_eq_true _ ▸ hpn
      rw [ih i j hij (by omega) hpi hpj (fun k hk hpk => h k (Nat.lt_succ_of_lt hk) hpk)]
      simp [hpn]

/-- The loop invariant behind the amended C3: emitted ids are positive,
remembered ids are positive, and every nonzero map cell carries the id of
some emitted record. -/
theorem runQueries_invariant (ctx : MergeCtx) :
    ∀ (ks : List ℕ) (s : MergeState),
      ((∀ seg ∈ s.segments, 0 < seg.id) ∧ (∀ kv ∈ s.stuffMemory, 0 < kv.2) ∧
        (∀ p, s.segmentation.getD p 0 ≠ 0 →
          ∃ seg ∈ s.segments, seg.id = s.segmentation.getD p 0)) →
      ((∀ seg ∈ (runQueries ctx ks s).segments, 0 < seg.id) ∧
        (∀ kv ∈ (runQueries ctx ks s).stuffMemory, 0 < kv.2) ∧
        (∀ p, (runQueries ctx ks s).segmentation.getD p 0 ≠ 0 →
          ∃ seg ∈ (runQueries ctx ks s).segments,
            seg.id = (runQueries ctx ks s).segmentation.getD p 0)) := by
  intro ks
  induction ks with
  | nil => intro s h; exact h
  | cons k ks ih =>
    intro s h
    rw [runQueries_cons]
    apply ih
    by_cases hacc : acceptedQ ctx k
    · obtain ⟨h1, h2, h3⟩ := h
      have hidpos : 0 < idUsed ctx k s := by
        unfold idUsed
        rcases hlk : s.stuffMemory.lookup (ctx.labels.getD k 0) with _ | ex
        · exact Nat.succ_pos _
        · exact h2 _ (lookup_mem _ _ _ hlk)
      rw [processQuery_of_accepted ctx k s hacc]
      refine ⟨?_, ?_, ?_⟩
      · intro seg hseg
        rw [acceptStep_segments] at hseg
        rcases List.mem_append.mp hseg with hm | hm
        · exact h1 seg hm
        · rcases List.mem_singleton.mp hm with rfl
          exact hidpos
      · intro kv hkv
        show 0 < kv.2
        have hmem : (acceptStep ctx k s).stuffMemory =
            if (!(ctx.classes.getD (ctx.labels.getD k 0) ⟨true, ""⟩).is_thing) = true then
              (ctx.labels.getD k 0, idUsed ctx k s) :: s.stuffMemory
            else s.stuffMemory := rfl
        rw [hmem] at hkv
        by_cases hstuff : (!(ctx.classes.getD (ctx.labels.getD k 0) ⟨true, ""⟩).is_thing) = true
        · rw [if_pos hstuff] at hkv
          rcases List.mem_cons.mp hkv with rfl | hkv'
          · exact hidpos
          · exact h2 _ hkv'
        · rw [if_neg hstuff] at hkv
          exact h2 _ hkv
      · intro p hp
        have hseg : (acceptStep ctx k s).segmentation =
            writeSeg s.segmentation ctx.winners k (idUsed ctx k s) := rfl
        rw [hseg, writeSeg_getD] at hp ⊢
        by_cases h1p : p < s.segmentation.length
        · rw [if_pos h1p] at hp ⊢
          by_cases hw : ctx.winners.getD p 0 = k
          · rw [if_pos hw] at hp ⊢
            refine ⟨⟨idUsed ctx k s, ctx.labels.getD k 0,
              !(!(ctx.classes.getD (ctx.labels.getD k 0) ⟨true, ""⟩).is_thing),
              (ctx.classes.getD (ctx.labels.getD k 0) ⟨true, ""⟩).label⟩, ?_, rfl⟩
            rw [acceptStep_segments]
            simp
          · rw [if_neg hw] at hp ⊢
            obtain ⟨seg, hsm, hsid⟩ := h3 p hp
            refine ⟨seg, ?_, hsid⟩
            rw [acceptStep_segments]
            exact List.mem_append_left _ hsm
        · rw [if_neg h1p] at hp
          exact absurd rfl hp
    · rw [processQuery_of_not_accepted ctx k s hacc]
      exact h

/-- The per-pixel winner array covers exactly the `numPixels` grid. -/
theorem mergeCtxOf_winners_length (masks : List (List ℚ)) (scores : List ℚ)
    (labels : List ℕ) (classes : List ClassSpec) (othr : ℚ) (numPixels : ℕ) :
    (mergeCtxOf masks scores labels classes othr numPixels).winners.length = numPixels := by
  unfold mergeCtxOf
  simp

/-- C3 amended: every emitted `Segment.id` is positive, and every nonzero
cell of the segmentation map equals the id of some emitted segment.
Distinctness of the emitted ids fails on the code (see the counterexample):
a stuff merge re-emits the remembered id and also resets
`current_segment_id` to it. -/
theorem mergeImage_ids_positive_and_cover (masks : List (List ℚ)) (scores : List ℚ)
    (labels : List ℕ) (classes : List ClassSpec) (othr : ℚ) (numPixels : ℕ) :
    (∀ seg ∈ (mergeImage masks scores labels classes othr numPixels).segments, 0 < seg.id) ∧
    (∀ p, (mergeImage masks scores labels classes othr numPixels).segmentation.getD p 0 ≠ 0 →
      ∃ seg ∈ (mergeImage masks scores labels classes othr numPixels).segments,
        seg.id = (mergeImage masks scores labels classes othr numPixels).segmentation.getD p 0) := by
  have h := runQueries_invariant (mergeCtxOf masks scores labels classes othr numPixels)
    (List.range labels.length) (initState numPixels)
    ⟨by simp [initState], by simp [initState], ?_⟩
  · exact ⟨h.1, h.2.2⟩
  · intro p hp
    rw [show (initState numPixels).segmentation = List.replicate numPixels 0 from rfl,
      getD_replicate_zero] at hp
    exact absurd rfl hp

/-- Witness for the amended C3: a concrete merge whose map cell 0 is
nonzero and covered by an emitted segment's id. -/
theorem mergeImage_ids_positive_and_cover_witness :
    (mergeImage [[7/10, 1/10], [1/10, 7/10]] [9/10, 9/10] [0, 0]
        [⟨false, "grass"⟩] (1/2) 2).segmentation.getD 0 0 ≠ 0 ∧
    ∃ seg ∈ (mergeImage [[7/10, 1/10], [1/10, 7/10]] [9/10, 9/10] [0, 0]
        [⟨false, "grass"⟩] (1/2) 2).segments,
      seg.id = (mergeImage [[7/10, 1/10], [1/10, 7/10]] [9/10, 9/10] [0, 0]
        [⟨false, "grass"⟩] (1/2) 2).segmentation.getD 0 0 :=
  ⟨by with_unfolding_all decide,
   (mergeImage_ids_positive_and_cover [[7/10, 1/10], [1/10, 7/10]] [9/10, 9/10] [0, 0]
      [⟨false, "grass"⟩] (1/2) 2).2 0 (by with_unfolding_all decide)⟩

/-- The query loop splits over list concatenation. -/
theorem runQueries_append (ctx : MergeCtx) :
    ∀ (ks1 ks2 : List ℕ) (s : MergeState),
      runQueries ctx (ks1 ++ ks2) s = runQueries ctx ks2 (runQueries ctx ks1 s) := by
  intro ks1
  induction ks1 with
  | nil => intro ks2 s; rfl
  | cons k ks ih => intro ks2 s; rw [List.cons_append, runQueries_cons, runQueries_cons, ih]

/-- The stuff-merge analysis over an arbitrary merge context: with exactly
two accepted class-`c` queries `i < j` of a stuff class, a single id `sid`
is allocated at `i`, remembered, reused by `j`'s merge, never overwritten,
and both queries' pixels hold it; exactly two records carry class `c`,
both with id `sid`. -/
theorem runQueries_stuff_merge (ctx : MergeCtx) (numPixels : ℕ) (i j c : ℕ)
    (hij : i < j) (hjn : j < ctx.labels.length)
    (hli : ctx.labels.getD i 0 = c) (hlj : ctx.labels.getD j 0 = c)
    (hst : (ctx.classes.getD c ⟨true, ""⟩).is_thing = false)
    (hacci : acceptedQ ctx i) (haccj : acceptedQ ctx j)
    (honly : ∀ k, k < ctx.labels.length → acceptedQ ctx k →
      ctx.labels.getD k 0 = c → k = i ∨ k = j) :
    ∃ sid, 0 < sid ∧
      ((runQueries ctx (List.range ctx.labels.length) (initState numPixels)).segments.countP
        (fun seg => seg.category_id == c)) = 2 ∧
      (∀ seg ∈ (runQueries ctx (List.range ctx.labels.length) (initState numPixels)).segments,
        seg.category_id = c → seg.id = sid) ∧
      (∀ p, p < numPixels → (ctx.winners.getD p 0 = i ∨ ctx.winners.getD p 0 = j) →
        (runQueries ctx (List.range ctx.labels.length)
          (initState numPixels)).segmentation.getD p 0 = sid) := by
  set n := ctx.labels.length with hn
  set ks2 : List ℕ := (List.range (n - (i + 1))).map ((i + 1) + ·) with hks2
  have hin : i < n := lt_trans hij hjn
  have hdecomp : List.range n = (List.range i ++ [i]) ++ ks2 := by
    rw [← List.range_succ, ← List.range_add]
    congr 1
    omega
  set s1 := runQueries ctx (List.range i) (initState numPixels) with hs1
  set s2 := processQuery ctx i s1 with hs2
  have hruns : runQueries ctx (List.range n) (initState numPixels) = runQueries ctx ks2 s2 := by
    rw [hdecomp, runQueries_append, runQueries_append]
    rfl
  have hnotbefore : ∀ k ∈ List.range i, ¬ (acceptedQ ctx k ∧ ctx.labels.getD k 0 = c) := by
    rintro k hk ⟨hak, hlk⟩
    have hki : k < i := List.mem_range.mp hk
    rcases honly k (by omega) hak hlk with rfl | rfl <;> omega
  have hA1 : s1.stuffMemory.lookup c = none := by
    rw [hs1, runQueries_lookup_untouched ctx _ _ hnotbefore]
    rfl
  have hA2 : ∀ seg ∈ s1.segments, seg.category_id ≠ c := by
    rw [hs1]
    exact runQueries_no_classc ctx c _ _ hnotbefore (by simp [initState])
  have hA3 : s1.segmentation.length = numPixels := by
    rw [hs1, runQueries_seg_length]
    simp [initState]
  have hB1 : idUsed ctx i s1 = s1.currentId + 1 := by
    unfold idUsed
    rw [hli, hA1]
  have hB2 : s2 = acceptStep ctx i s1 := by
    rw [hs2, processQuery_of_accepted ctx i s1 hacci]
  have hmem2 : s2.stuffMemory.lookup c = some (s1.currentId + 1) := by
    rw [hB2]
    show (if (!(ctx.classes.getD (ctx.labels.getD i 0) ⟨true, ""⟩).is_thing) = true then
        (ctx.labels.getD i 0, idUsed ctx i s1) :: s1.stuffMemory
      else s1.stuffMemory).lookup c = _
    rw [if_pos (by rw [hli, hst]; rfl), hli, hB1]
    exact lookup_cons_self _ _
  obtain ⟨t, ht, hprop⟩ := runQueries_classc_ids ctx hst ks2 s2 hmem2
  refine ⟨s1.currentId + 1, Nat.succ_pos _, ?_, ?_, ?_⟩
  · rw [runQueries_count_cat, show (initState numPixels).segments = [] from rfl,
      List.countP_nil]
    rw [countP_range_two (fun k => decide (acceptedQ ctx k) && (ctx.labels.getD k 0 == c))
      n i j hij hjn
      (by
        show (decide (acceptedQ ctx i) && (ctx.labels.getD i 0 == c)) = true
        rw [decide_eq_true hacci, hli]
        simp)
      (by
        show (decide (acceptedQ ctx j) && (ctx.labels.getD j 0 == c)) = true
        rw [decide_eq_true haccj, hlj]
        simp)
      (by
        intro k hk hpk
        simp only [Bool.and_eq_true, decide_eq_true_eq, beq_iff_eq] at hpk
        exact honly k hk hpk.1 hpk.2)]
  · rw [hruns]
    intro seg hseg hcat
    rw [ht] at hseg
    rcases List.mem_append.mp hseg with hm | hm
    · rw [hB2, acceptStep_segments] at hm
      rcases List.mem_append.mp hm with hm' | hm'
      · exact absurd hcat (hA2 seg hm')
      · rcases List.mem_singleton.mp hm' with rfl
        exact hB1
    · exact hprop seg hm hcat
  · intro p hp hor
    rw [hruns]
    have hp2 : p < s2.segmentation.length := by
      rw [hs2, processQuery_seg_length, hA3]
      exact hp
    rcases hor with hwp | hwp
    · refine runQueries_pixel_stuff ctx hst ks2 s2 p hmem2 hp2
        (by rw [hwp]; exact hli) (by rw [hwp]; exact hacci) (Or.inr ?_)
      rw [hs2, processQuery_getD_of_accepted ctx i s1 p hacci hwp (by rw [hA3]; exact hp), hB1]
    · have hjks2 : j ∈ ks2 := by
        rw [hks2]
        exact List.mem_map.mpr ⟨j - (i + 1), List.mem_range.mpr (by omega), by omega⟩
      refine runQueries_pixel_stuff ctx hst ks2 s2 p hmem2 hp2
        (by rw [hwp]; exact hlj) (by rw [hwp]; exact haccj) (Or.inl ?_)
      rw [hwp]
      exact hjks2

/-- C2 amended: for every input to the Panoptic Merger in which two
surviving queries `i < j` are both accepted, both predict the same stuff
class `c`, and are the only accepted queries predicting `c` (their accepted
pixel sets are disjoint automatically: the per-pixel argmax assigns each
pixel to at most one query), there is a single positive segment id `sid`
such that the segment list contains exactly *two* records for class `c` -
the merge branch appends a duplicate record (source lines 512-519) instead
of none - every class-`c` record carries that one id, and the segmentation
map holds both queries' accepted pixels under that single id. -/
theorem mergeImage_stuff_merge (masks : List (List ℚ)) (scores : List ℚ)
    (labels : List ℕ) (classes : List ClassSpec) (othr : ℚ) (numPixels : ℕ) (i j c : ℕ)
    (hij : i < j) (hjn : j < labels.length)
    (hli : labels.getD i 0 = c) (hlj : labels.getD j 0 = c)
    (hst : (classes.getD c ⟨true, ""⟩).is_thing = false)
    (hacci : acceptedQ (mergeCtxOf masks scores labels classes othr numPixels) i)
    (haccj : acceptedQ (mergeCtxOf masks scores labels classes othr numPixels) j)
    (honly : ∀ k, k < labels.length →
      acceptedQ (mergeCtxOf masks scores labels classes othr numPixels) k →
      labels.getD k 0 = c → k = i ∨ k = j) :
    ∃ sid, 0 < sid ∧
      ((mergeImage masks scores labels classes othr numPixels).segments.countP
        (fun seg => seg.category_id == c)) = 2 ∧
      (∀ seg ∈ (mergeImage masks scores labels classes othr numPixels).segments,
        seg.category_id = c → seg.id = sid) ∧
      (∀ p, p < numPixels →
        ((mergeCtxOf masks scores labels classes othr numPixels).winners.getD p 0 = i ∨
          (mergeCtxOf masks scores labels classes othr numPixels).winners.getD p 0 = j) →
        (mergeImage masks scores labels classes othr numPixels).segmentation.getD p 0 = sid) :=
  runQueries_stuff_merge (mergeCtxOf masks scores labels classes othr numPixels)
    numPixels i j c hij hjn hli hlj hst hacci haccj honly

/-- Witness for the amended C2 at the concrete stuff-merge input. -/
theorem mergeImage_stuff_merge_witness :
    ∃ sid, 0 < sid ∧
      ((mergeImage [[4/5, 1/5], [1/5, 4/5]] [4/5, 4/5] [0, 0]
          [⟨false, "sky"⟩] (1/2) 2).segments.countP
        (fun seg => seg.category_id == 0)) = 2 ∧
      (∀ seg ∈ (mergeImage [[4/5, 1/5], [1/5, 4/5]] [4/5, 4/5] [0, 0]
          [⟨false, "sky"⟩] (1/2) 2).segments,
        seg.category_id = 0 → seg.id = sid) ∧
      (∀ p, p < 2 →
        ((mergeCtxOf [[4/5, 1/5], [1/5, 4/5]] [4/5, 4/5] [0, 0]
            [⟨false, "sky"⟩] (1/2) 2).winners.getD p 0 = 0 ∨
          (mergeCtxOf [[4/5, 1/5], [1/5, 4/5]] [4/5, 4/5] [0, 0]
            [⟨false, "sky"⟩] (1/2) 2).winners.getD p 0 = 1) →
        (mergeImage [[4/5, 1/5], [1/5, 4/5]] [4/5, 4/5] [0, 0]
          [⟨false, "sky"⟩] (1/2) 2).segmentation.getD p 0 = sid) :=
  mergeImage_stuff_merge [[4/5, 1/5], [1/5, 4/5]] [4/5, 4/5] [0, 0]
    [⟨false, "sky"⟩] (1/2) 2 0 1 0
    (by decide) (by decide) (by decide) (by decide) (by decide)
    (by with_unfolding_all decide) (by with_unfolding_all decide)
    (by intro k hk _ _; simp only [List.length_cons, List.length_nil] at hk; omega)
